import Mathlib

/-!
Verification of the shader-source splitter (`ParseShader`) and the program
builder (`CompileShader` / `CreateShader`) of `src/OpenGL/maincpp.cpp`,
shallowly embedded in Lean.

Modelling conventions:
* C++ `std::string` values are modelled as `List Char` (abbreviated `Str`).
* `line.find(pat) != std::string::npos` is modelled by the substring test
  `hasSub line pat`.
* `std::getline` applied repeatedly to the file contents is modelled by
  `getLines`.
* The OpenGL driver is modelled by an oracle (`GLOracle`) giving the result
  of each stage compilation, the corresponding info log, and the link
  outcome; each GL call performed by the code is recorded in an event trace
  (`GLEvent`) carried by an explicit state (`GLState`).
* The out-of-bounds write `ss[(int)ShaderType::NONE]`, i.e. `ss[-1]`, that
  the C++ performs on a content line before any `#shader` directive is
  undefined behavior and is modelled as the failure value `none`.
-/

namespace OpenGLVerify

abbrev Str := List Char

/-- Substring test: `hasSub hay pat` mirrors `hay.find(pat) != std::string::npos`. -/
def hasSub : Str → Str → Bool
  | [], pat => pat.isEmpty
  | hay@(_ :: t), pat => pat.isPrefixOf hay || hasSub t pat

/-- The local enum of `ParseShader`: `NONE = -1, VERTEX = 0, FRAGMENT = 1`. -/
inductive ShaderType
  | NONE
  | VERTEX
  | FRAGMENT
deriving DecidableEq

/-- The returned pair of accumulated source strings. -/
structure ShaderProgramSource where
  VertexSource : Str
  FragmentSource : Str
deriving DecidableEq

def shaderTok : Str := "#shader".toList

def vertexTok : Str := "vertex".toList

def fragmentTok : Str := "fragment".toList

/-- Loop state of `ParseShader`: the current `type` and the two
stringstreams `ss[0]` (vertex) and `ss[1]` (fragment). -/
structure ParseState where
  type : ShaderType
  vbuf : Str
  fbuf : Str
deriving DecidableEq

/-- One iteration of the `while (getline(stream, line))` loop body of
`ParseShader`.  On a content line while `type` is still `NONE`, the C++
executes `ss[(int)type] << line << "\n"` with `(int)type = -1`, an
out-of-bounds array access (undefined behavior); that case is modelled as
`none`. -/
def lineStep (st : ParseState) (line : Str) : Option ParseState :=
  if hasSub line shaderTok then
    if hasSub line vertexTok then
      some { st with type := ShaderType.VERTEX }
    else if hasSub line fragmentTok then
      some { st with type := ShaderType.FRAGMENT }
    else
      some st
  else
    match st.type with
    | ShaderType.NONE => none
    | ShaderType.VERTEX => some { st with vbuf := st.vbuf ++ line ++ ['\n'] }
    | ShaderType.FRAGMENT => some { st with fbuf := st.fbuf ++ line ++ ['\n'] }

/-- The `while (getline(stream, line))` loop of `ParseShader`. -/
def parseLines : ParseState → List Str → Option ParseState
  | st, [] => some st
  | st, l :: ls =>
    match lineStep st l with
    | none => none
    | some st' => parseLines st' ls

/-- Successive `std::getline` results on the file contents: the lines of the
file, without their newline terminators.  A final line lacking a newline
terminator is still produced, and an empty file produces no lines. -/
def getLines : Str → List Str
  | [] => []
  | c :: rest =>
    if c = '\n' then
      [] :: getLines rest
    else
      match getLines rest with
      | [] => [[c]]
      | l :: ls => (c :: l) :: ls

/-- `ParseShader`, applied to the contents of the file at `filepath`. -/
def ParseShader (file : Str) : Option ShaderProgramSource :=
  match parseLines ⟨ShaderType.NONE, [], []⟩ (getLines file) with
  | none => none
  | some st => some ⟨st.vbuf, st.fbuf⟩

/-- The given lines, each terminated by a newline, concatenated. -/
def joinLines (ls : List Str) : Str := (ls.map fun l => l ++ ['\n']).flatten

/-- The two stage kinds the builder uses: `GL_VERTEX_SHADER` and
`GL_FRAGMENT_SHADER`. -/
inductive GLShaderKind
  | vertex
  | fragment
deriving DecidableEq

/-- The observable behavior of the GL driver during one build: the
`GL_COMPILE_STATUS` each stage compilation yields, the corresponding info
log, and the link outcome.  The code under verification never consults
`linkOk`; it is part of the model so that theorems can quantify over the
link outcome. -/
structure GLOracle where
  compileOk : GLShaderKind → Str → Bool
  infoLog : GLShaderKind → Str → Str
  linkOk : Bool

/-- GL calls and console writes performed by the builder, recorded in
order.  `getProgramLinkStatus` is the `glGetProgramiv(GL_LINK_STATUS)`
query the GL API offers; the code never performs it. -/
inductive GLEvent
  | createShader (kind : GLShaderKind) (id : Nat)
  | shaderSource (id : Nat) (src : Str)
  | compileShader (id : Nat)
  | getShaderCompileStatus (id : Nat) (ok : Bool)
  | getShaderInfoLog (id : Nat) (log : Str)
  | printLine (s : Str)
  | deleteShader (id : Nat)
  | createProgram (id : Nat)
  | attachShader (prog : Nat) (id : Nat)
  | linkProgram (prog : Nat) (ok : Bool)
  | getProgramLinkStatus (prog : Nat) (ok : Bool)
  | validateProgram (prog : Nat)
deriving DecidableEq

/-- GL-side state: the next fresh (nonzero) object name, and the event
trace so far. -/
structure GLState where
  nextId : Nat
  events : List GLEvent
deriving DecidableEq

def emit (e : GLEvent) (st : GLState) : GLState :=
  { st with events := st.events ++ [e] }

/-- Allocation of a fresh GL object name (`glCreateShader` /
`glCreateProgram` results); names are nonzero when `nextId` starts at 1. -/
def freshId (st : GLState) : Nat × GLState :=
  (st.nextId, { st with nextId := st.nextId + 1 })

/-- `(type == GL_VERTEX_SHADER ? "vertex" : "fragment")`. -/
def stageName : GLShaderKind → Str
  | GLShaderKind.vertex => "vertex".toList
  | GLShaderKind.fragment => "fragment".toList

/-- The fixed text of the failure message printed by `CompileShader`. -/
def failMsg : Str := "Failed to compile shader".toList

/-- `CompileShader(type, source)`: create a stage object, hand it the
source, compile, and query `GL_COMPILE_STATUS`.  On failure, fetch the
info log, print the failure message and the log, delete the stage object,
and return the sentinel `0`; on success return the stage object's name. -/
def CompileShader (o : GLOracle) (kind : GLShaderKind) (source : Str)
    (st : GLState) : Nat × GLState :=
  let p := freshId st
  let id := p.1
  let st := p.2
  let st := emit (GLEvent.createShader kind id) st
  let st := emit (GLEvent.shaderSource id source) st
  let st := emit (GLEvent.compileShader id) st
  let result := o.compileOk kind source
  let st := emit (GLEvent.getShaderCompileStatus id result) st
  if result = false then
    let message := o.infoLog kind source
    let st := emit (GLEvent.getShaderInfoLog id message) st
    let st := emit (GLEvent.printLine (failMsg ++ stageName kind)) st
    let st := emit (GLEvent.printLine message) st
    let st := emit (GLEvent.deleteShader id) st
    (0, st)
  else
    (id, st)

/-- `CreateShader(vertexShader, fragmentShader)`: create a program object,
compile both stages, attach both results to the program, link, validate,
delete both stage handles, and return the program name — with no check of
either stage's result or of the link status. -/
def CreateShader (o : GLOracle) (vertexShader : Str) (fragmentShader : Str)
    (st : GLState) : Nat × GLState :=
  let p := freshId st
  let program := p.1
  let st := p.2
  let st := emit (GLEvent.createProgram program) st
  let pv := CompileShader o GLShaderKind.vertex vertexShader st
  let vs := pv.1
  let st := pv.2
  let pf := CompileShader o GLShaderKind.fragment fragmentShader st
  let fs := pf.1
  let st := pf.2
  let st := emit (GLEvent.attachShader program vs) st
  let st := emit (GLEvent.attachShader program fs) st
  let st := emit (GLEvent.linkProgram program o.linkOk) st
  let st := emit (GLEvent.validateProgram program) st
  let st := emit (GLEvent.deleteShader vs) st
  let st := emit (GLEvent.deleteShader fs) st
  (program, st)

/-- The console lines written during a trace (`std::cout << ... << std::endl`). -/
def printedLines (evs : List GLEvent) : List Str :=
  evs.filterMap fun e =>
    match e with
    | GLEvent.printLine s => some s
    | _ => none

/-- How many `glCompileShader` calls a trace contains. -/
def numCompileCalls (evs : List GLEvent) : Nat :=
  (evs.filter fun e =>
    match e with
    | GLEvent.compileShader _ => true
    | _ => false).length

/-- A driver behavior on which the vertex stage fails to compile and the
fragment stage compiles fine. -/
def vertexFailOracle : GLOracle where
  compileOk := fun k _ =>
    match k with
    | GLShaderKind.vertex => false
    | GLShaderKind.fragment => true
  infoLog := fun _ _ => "0:1: error: syntax error".toList
  linkOk := true

/-- A driver behavior on which both stages compile but linking fails. -/
def linkFailOracle : GLOracle where
  compileOk := fun _ _ => true
  infoLog := fun _ _ => []
  linkOk := false

def badVertexSrc : Str := "bad vertex source".toList

def okFragSrc : Str := "good fragment source".toList

/-- The build performed by `CreateShader` on `vertexFailOracle`, starting
from the fresh GL state. -/
def vertexFailBuild : Nat × GLState :=
  CreateShader vertexFailOracle badVertexSrc okFragSrc ⟨1, []⟩

/-- The build performed by `CreateShader` on `linkFailOracle`, starting
from the fresh GL state. -/
def linkFailBuild : Nat × GLState :=
  CreateShader linkFailOracle ("vert".toList) ("frag".toList) ⟨1, []⟩

/-! ### Helper lemmas about the splitter -/

theorem hasSub_iff (pat hay : Str) : hasSub hay pat = true ↔ pat <:+: hay := by
  induction hay with
  | nil =>
    simp [hasSub, List.isEmpty_iff, List.infix_nil]
  | cons c t ih =>
    simp [hasSub, List.infix_cons_iff, List.isPrefixOf_iff_prefix, ih]

theorem hasSub_eq_false_iff (pat hay : Str) :
    hasSub hay pat = false ↔ ¬ pat <:+: hay := by
  constructor
  · intro h hinf
    rw [(hasSub_iff pat hay).mpr hinf] at h
    exact absurd h (by simp)
  · intro h
    cases hh : hasSub hay pat
    · rfl
    · exact absurd ((hasSub_iff pat hay).mp hh) h

theorem prefix_drop_newline :
    ∀ (p x y : Str), '\n' ∉ p → p <+: x ++ '\n' :: y → p <+: x := by
  intro p
  induction p with
  | nil =>
    intro x y _ _
    exact List.nil_prefix
  | cons b p' ih =>
    intro x y hnl h
    cases x with
    | nil =>
      rw [List.nil_append] at h
      rcases List.cons_prefix_cons.mp h with ⟨hb, _⟩
      subst hb
      simp at hnl
    | cons a x' =>
      rw [List.cons_append] at h
      rcases List.cons_prefix_cons.mp h with ⟨hb, hp⟩
      subst hb
      refine List.cons_prefix_cons.mpr ⟨rfl, ?_⟩
      exact ih x' y (fun hm => hnl (List.mem_cons_of_mem _ hm)) hp

theorem infix_split_newline (p : Str) (hne : p ≠ []) (hnl : '\n' ∉ p) :
    ∀ (c rest : Str), p <:+: c ++ '\n' :: rest → p <:+: c ∨ p <:+: rest := by
  intro c
  induction c with
  | nil =>
    intro rest h
    rw [List.nil_append] at h
    rcases List.infix_cons_iff.mp h with hpre | hinf
    · cases p with
      | nil => exact absurd rfl hne
      | cons b p' =>
        rcases List.cons_prefix_cons.mp hpre with ⟨hb, _⟩
        subst hb
        simp at hnl
    · exact Or.inr hinf
  | cons a c' ih =>
    intro rest h
    rw [List.cons_append] at h
    rcases List.infix_cons_iff.mp h with hpre | hinf
    · have hp : p <+: a :: c' :=
        prefix_drop_newline p (a :: c') rest hnl (by rw [List.cons_append]; exact hpre)
      exact Or.inl ( List.IsPrefix.isInfix hp)
    · rcases ih rest hinf with h1 | h2
      · exact Or.inl ( List.infix_cons h1)
      · exact Or.inr h2

theorem joinLines_nil : joinLines [] = [] := rfl

theorem joinLines_cons (l : Str) (ls : List Str) :
    joinLines (l :: ls) = l ++ '\n' :: joinLines ls := by
  simp [joinLines, List.append_assoc]

theorem not_infix_joinLines (p : Str) (hne : p ≠ []) (hnl : '\n' ∉ p) :
    ∀ cs : List Str, (∀ c ∈ cs, ¬ p <:+: c) → ¬ p <:+: joinLines cs := by
  intro cs
  induction cs with
  | nil =>
    intro _ h
    rw [joinLines_nil, List.infix_nil] at h
    exact hne h
  | cons c cs' ih =>
    intro hall h
    rw [joinLines_cons] at h
    rcases infix_split_newline p hne hnl c (joinLines cs') h with h1 | h2
    · exact hall c (List.mem_cons_self c cs') h1
    · exact ih (fun x hx => hall x (List.mem_cons_of_mem c hx)) h2

theorem parseLines_cons (st : ParseState) (l : Str) (ls : List Str) :
    parseLines st (l :: ls) =
      match lineStep st l with
      | none => none
      | some st' => parseLines st' ls := rfl

theorem lineStep_vertex_directive (st : ParseState) (l : Str)
    (h1 : hasSub l shaderTok = true) (h2 : hasSub l vertexTok = true) :
    lineStep st l = some { st with type := ShaderType.VERTEX } := by
  simp [lineStep, h1, h2]

theorem lineStep_fragment_directive (st : ParseState) (l : Str)
    (h1 : hasSub l shaderTok = true) (h2 : hasSub l vertexTok = false)
    (h3 : hasSub l fragmentTok = true) :
    lineStep st l = some { st with type := ShaderType.FRAGMENT } := by
  simp [lineStep, h1, h2, h3]

theorem parseLines_append (as : List Str) :
    ∀ (bs : List Str) (st : ParseState),
      parseLines st (as ++ bs) =
        match parseLines st as with
        | none => none
        | some st' => parseLines st' bs := by
  induction as with
  | nil =>
    intro bs st
    rfl
  | cons l as' ih =>
    intro bs st
    rw [List.cons_append, parseLines_cons, parseLines_cons]
    cases lineStep st l with
    | none => rfl
    | some st' => exact ih bs st'

theorem parseLines_vertex (ls : List Str) :
    ∀ (v f : Str), (∀ l ∈ ls, hasSub l shaderTok = false) →
      parseLines ⟨ShaderType.VERTEX, v, f⟩ ls =
        some ⟨ShaderType.VERTEX, v ++ joinLines ls, f⟩ := by
  induction ls with
  | nil =>
    intro v f _
    simp [parseLines, joinLines_nil]
  | cons l ls' ih =>
    intro v f hall
    have hl : hasSub l shaderTok = false := hall l (List.mem_cons_self _ _)
    rw [parseLines_cons]
    have hstep : lineStep ⟨ShaderType.VERTEX, v, f⟩ l =
        some ⟨ShaderType.VERTEX, v ++ l ++ ['\n'], f⟩ := by
      simp [lineStep, hl]
    rw [hstep]
    show parseLines ⟨ShaderType.VERTEX, v ++ l ++ ['\n'], f⟩ ls' = _
    rw [ih (v ++ l ++ ['\n']) f (fun x hx => hall x (List.mem_cons_of_mem _ hx)),
      joinLines_cons]
    simp [List.append_assoc]

theorem parseLines_fragment (ls : List Str) :
    ∀ (v f : Str), (∀ l ∈ ls, hasSub l shaderTok = false) →
      parseLines ⟨ShaderType.FRAGMENT, v, f⟩ ls =
        some ⟨ShaderType.FRAGMENT, v, f ++ joinLines ls⟩ := by
  induction ls with
  | nil =>
    intro v f _
    simp [parseLines, joinLines_nil]
  | cons l ls' ih =>
    intro v f hall
    have hl : hasSub l shaderTok = false := hall l (List.mem_cons_self _ _)
    rw [parseLines_cons]
    have hstep : lineStep ⟨ShaderType.FRAGMENT, v, f⟩ l =
        some ⟨ShaderType.FRAGMENT, v, f ++ l ++ ['\n']⟩ := by
      simp [lineStep, hl]
    rw [hstep]
    show parseLines ⟨ShaderType.FRAGMENT, v, f ++ l ++ ['\n']⟩ ls' = _
    rw [ih v (f ++ l ++ ['\n']) (fun x hx => hall x (List.mem_cons_of_mem _ hx)),
      joinLines_cons]
    simp [List.append_assoc]

theorem parse_chunks (ls : List Str) :
    ∀ (st st' : ParseState), parseLines st ls = some st' →
      ∃ va fa : List Str,
        st'.vbuf = st.vbuf ++ joinLines va ∧
        st'.fbuf = st.fbuf ++ joinLines fa ∧
        (∀ l ∈ va, hasSub l shaderTok = false) ∧
        (∀ l ∈ fa, hasSub l shaderTok = false) := by
  induction ls with
  | nil =>
    intro st st' h
    rw [parseLines] at h
    injection h with h'
    subst h'
    exact ⟨[], [], by simp [joinLines_nil], by simp [joinLines_nil], by simp, by simp⟩
  | cons l ls' ih =>
    intro st st' h
    rw [parseLines_cons] at h
    cases hstep : lineStep st l with
    | none =>
      rw [hstep] at h
      exact absurd h (by simp)
    | some st1 =>
      rw [hstep] at h
      obtain ⟨t, v, f⟩ := st
      unfold lineStep at hstep
      by_cases hm : hasSub l shaderTok = true
      · rw [if_pos hm] at hstep
        have hbuf : st1.vbuf = v ∧ st1.fbuf = f := by
          by_cases hv : hasSub l vertexTok = true
          · rw [if_pos hv] at hstep
            injection hstep with h1
            rw [← h1]
            exact ⟨rfl, rfl⟩
          · rw [if_neg hv] at hstep
            by_cases hf : hasSub l fragmentTok = true
            · rw [if_pos hf] at hstep
              injection hstep with h1
              rw [← h1]
              exact ⟨rfl, rfl⟩
            · rw [if_neg hf] at hstep
              injection hstep with h1
              rw [← h1]
              exact ⟨rfl, rfl⟩
        obtain ⟨va, fa, hv1, hf1, hva, hfa⟩ := ih st1 st' h
        exact ⟨va, fa, by rw [hv1, hbuf.1], by rw [hf1, hbuf.2], hva, hfa⟩
      · rw [if_neg hm] at hstep
        have hm' : hasSub l shaderTok = false := by
          cases hh : hasSub l shaderTok
          · rfl
          · exact absurd hh hm
        cases t with
        | NONE => exact absurd hstep (by simp)
        | VERTEX =>
          injection hstep with h1
          obtain ⟨va, fa, hv1, hf1, hva, hfa⟩ := ih st1 st' h
          refine ⟨l :: va, fa, ?_, ?_, ?_, hfa⟩
          · rw [hv1, ← h1, joinLines_cons]
            simp [List.append_assoc]
          · rw [hf1, ← h1]
          · intro x hx
            rcases List.mem_cons.mp hx with hx1 | hx2
            · rw [hx1]; exact hm'
            · exact hva x hx2
        | FRAGMENT =>
          injection hstep with h1
          obtain ⟨va, fa, hv1, hf1, hva, hfa⟩ := ih st1 st' h
          refine ⟨va, l :: fa, ?_, ?_, hva, ?_⟩
          · rw [hv1, ← h1]
          · rw [hf1, ← h1, joinLines_cons]
            simp [List.append_assoc]
          · intro x hx
            rcases List.mem_cons.mp hx with hx1 | hx2
            · rw [hx1]; exact hm'
            · exact hfa x hx2

theorem getLines_append_newline :
    ∀ (l rest : Str), '\n' ∉ l → getLines (l ++ '\n' :: rest) = l :: getLines rest := by
  intro l
  induction l with
  | nil =>
    intro rest _
    simp [getLines]
  | cons c l' ih =>
    intro rest hnl
    have hc : c ≠ '\n' := fun h => hnl (by rw [h]; exact List.mem_cons_self _ _)
    have hl' : '\n' ∉ l' := fun h => hnl (List.mem_cons_of_mem _ h)
    rw [List.cons_append, getLines, if_neg hc, ih rest hl']

theorem getLines_joinLines :
    ∀ ls : List Str, (∀ l ∈ ls, '\n' ∉ l) → getLines (joinLines ls) = ls := by
  intro ls
  induction ls with
  | nil =>
    intro _
    rfl
  | cons l ls' ih =>
    intro hall
    rw [joinLines_cons, getLines_append_newline l _ (hall l (List.mem_cons_self _ _)),
      ih (fun x hx => hall x (List.mem_cons_of_mem _ hx))]

/-! ### Claim theorems for the splitter -/

/-- Claim C1: for a file made of a vertex-directive line, `N` vertex
content lines, a fragment-directive line, and `M` fragment content lines —
in either section order — `ParseShader` produces a `ShaderProgramSource`
whose `VertexSource` is exactly the `N` vertex content lines in original
order, each terminated by a newline, and whose `FragmentSource` is exactly
the `M` fragment content lines in original order, each terminated by a
newline. -/
theorem parseShader_two_sections
    (dv df : Str) (vls fls : List Str)
    (hdvn : '\n' ∉ dv) (hdfn : '\n' ∉ df)
    (hvn : ∀ l ∈ vls, '\n' ∉ l) (hfn : ∀ l ∈ fls, '\n' ∉ l)
    (hdv1 : hasSub dv shaderTok = true) (hdv2 : hasSub dv vertexTok = true)
    (hdf1 : hasSub df shaderTok = true) (hdf2 : hasSub df vertexTok = false)
    (hdf3 : hasSub df fragmentTok = true)
    (hvc : ∀ l ∈ vls, hasSub l shaderTok = false)
    (hfc : ∀ l ∈ fls, hasSub l shaderTok = false) :
    ParseShader (joinLines (dv :: vls ++ df :: fls)) =
      some ⟨joinLines vls, joinLines fls⟩ ∧
    ParseShader (joinLines (df :: fls ++ dv :: vls)) =
      some ⟨joinLines vls, joinLines fls⟩ := by
  constructor
  · have hlines : ∀ l ∈ dv :: vls ++ df :: fls, '\n' ∉ l := by
      intro l hl
      rcases List.mem_cons.mp hl with h | h
      · rw [h]; exact hdvn
      · rcases List.mem_append.mp h with h1 | h2
        · exact hvn l h1
        · rcases List.mem_cons.mp h2 with h3 | h4
          · rw [h3]; exact hdfn
          · exact hfn l h4
    unfold ParseShader
    rw [getLines_joinLines _ hlines, List.cons_append, parseLines_cons,
      lineStep_vertex_directive _ _ hdv1 hdv2]
    show (match parseLines ⟨ShaderType.VERTEX, [], []⟩ (vls ++ df :: fls) with
      | none => none
      | some st => some (⟨st.vbuf, st.fbuf⟩ : ShaderProgramSource)) = _
    rw [parseLines_append, parseLines_vertex vls [] [] hvc]
    show (match parseLines ⟨ShaderType.VERTEX, [] ++ joinLines vls, []⟩ (df :: fls) with
      | none => none
      | some st => some (⟨st.vbuf, st.fbuf⟩ : ShaderProgramSource)) = _
    rw [parseLines_cons, lineStep_fragment_directive _ _ hdf1 hdf2 hdf3]
    show (match parseLines ⟨ShaderType.FRAGMENT, [] ++ joinLines vls, []⟩ fls with
      | none => none
      | some st => some (⟨st.vbuf, st.fbuf⟩ : ShaderProgramSource)) = _
    rw [parseLines_fragment fls _ [] hfc]
    simp
  · have hlines : ∀ l ∈ df :: fls ++ dv :: vls, '\n' ∉ l := by
      intro l hl
      rcases List.mem_cons.mp hl with h | h
      · rw [h]; exact hdfn
      · rcases List.mem_append.mp h with h1 | h2
        · exact hfn l h1
        · rcases List.mem_cons.mp h2 with h3 | h4
          · rw [h3]; exact hdvn
          · exact hvn l h4
    unfold ParseShader
    rw [getLines_joinLines _ hlines, List.cons_append, parseLines_cons,
      lineStep_fragment_directive _ _ hdf1 hdf2 hdf3]
    show (match parseLines ⟨ShaderType.FRAGMENT, [], []⟩ (fls ++ dv :: vls) with
      | none => none
      | some st => some (⟨st.vbuf, st.fbuf⟩ : ShaderProgramSource)) = _
    rw [parseLines_append, parseLines_fragment fls [] [] hfc]
    show (match parseLines ⟨ShaderType.FRAGMENT, [], [] ++ joinLines fls⟩ (dv :: vls) with
      | none => none
      | some st => some (⟨st.vbuf, st.fbuf⟩ : ShaderProgramSource)) = _
    rw [parseLines_cons, lineStep_vertex_directive _ _ hdv1 hdv2]
    show (match parseLines ⟨ShaderType.VERTEX, [], [] ++ joinLines fls⟩ vls with
      | none => none
      | some st => some (⟨st.vbuf, st.fbuf⟩ : ShaderProgramSource)) = _
    rw [parseLines_vertex vls [] _ hvc]
    simp

theorem parseShader_two_sections_witness :
    hasSub ("#shader vertex".toList) shaderTok = true ∧
    ParseShader (joinLines
        (("#shader vertex".toList) :: [("v1".toList)] ++
          ("#shader fragment".toList) :: [("f1".toList), ("f2".toList)])) =
      some ⟨joinLines [("v1".toList)], joinLines [("f1".toList), ("f2".toList)]⟩ ∧
    ParseShader (joinLines
        (("#shader fragment".toList) :: [("f1".toList), ("f2".toList)] ++
          ("#shader vertex".toList) :: [("v1".toList)])) =
      some ⟨joinLines [("v1".toList)], joinLines [("f1".toList), ("f2".toList)]⟩ := by
  refine ⟨by decide, ?_⟩
  exact parseShader_two_sections ("#shader vertex".toList) ("#shader fragment".toList)
    [("v1".toList)] [("f1".toList), ("f2".toList)]
    (by decide) (by decide) (by decide) (by decide) (by decide) (by decide)
    (by decide) (by decide) (by decide) (by decide) (by decide)

/-- Claim C5 (refuting evaluation): on the file `"abc\n"`, whose single
content line precedes any `#shader` directive, `ParseShader` reaches the
write `ss[(int)ShaderType::NONE] << line`, i.e. the out-of-bounds access
`ss[-1]` (modelled as `none`): the accumulation-array indexing does go out
of bounds instead of safely discarding the line. -/
theorem parseShader_content_before_directive_oob :
    ParseShader ("abc\n".toList) = none := by decide

/-- Claim C6: whenever `ParseShader` returns a result, the marker token
`#shader` occurs in neither output string; since every directive line
contains the marker, no directive line ever appears in either output —
directive lines only switch the current accumulation mode. -/
theorem parseShader_no_directive_in_output (file : Str) (src : ShaderProgramSource)
    (h : ParseShader file = some src) :
    hasSub src.VertexSource shaderTok = false ∧
    hasSub src.FragmentSource shaderTok = false := by
  unfold ParseShader at h
  cases hp : parseLines ⟨ShaderType.NONE, [], []⟩ (getLines file) with
  | none =>
    rw [hp] at h
    exact absurd h (by simp)
  | some st =>
    rw [hp] at h
    injection h with h'
    obtain ⟨va, fa, hv, hf, hva, hfa⟩ := parse_chunks _ _ _ hp
    rw [← h']
    constructor
    · show hasSub st.vbuf shaderTok = false
      rw [hv]
      refine (hasSub_eq_false_iff _ _).mpr ?_
      show ¬ shaderTok <:+: [] ++ joinLines va
      rw [List.nil_append]
      refine not_infix_joinLines shaderTok (by decide) (by decide) va ?_
      intro c hc
      exact (hasSub_eq_false_iff _ _).mp (hva c hc)
    · show hasSub st.fbuf shaderTok = false
      rw [hf]
      refine (hasSub_eq_false_iff _ _).mpr ?_
      show ¬ shaderTok <:+: [] ++ joinLines fa
      rw [List.nil_append]
      refine not_infix_joinLines shaderTok (by decide) (by decide) fa ?_
      intro c hc
      exact (hasSub_eq_false_iff _ _).mp (hfa c hc)

theorem parseShader_no_directive_in_output_witness :
    ParseShader ("#shader vertex\nabc\n".toList) =
      some ⟨"abc\n".toList, []⟩ ∧
    hasSub (ShaderProgramSource.mk ("abc\n".toList) []).VertexSource shaderTok = false ∧
    hasSub (ShaderProgramSource.mk ("abc\n".toList) []).FragmentSource shaderTok = false :=
  ⟨by decide,
    parseShader_no_directive_in_output ("#shader vertex\nabc\n".toList)
      (ShaderProgramSource.mk ("abc\n".toList) []) (by decide)⟩

/-- Claim C9: on the empty input file, `ParseShader` is defined (it does
not crash) and returns a `ShaderProgramSource` whose `VertexSource` and
`FragmentSource` are both the empty string. -/
theorem parseShader_empty_file : ParseShader [] = some ⟨[], []⟩ := by decide

/-- Claim C10: a line containing `#shader` but containing neither `vertex`
nor `fragment` leaves the parser state — the current accumulation mode and
both buffers — unchanged; and a line containing `#shader` together with
both sub-tokens selects `VERTEX`, because `vertex` is tested first. -/
theorem lineStep_directive_cases (st : ParseState) (l : Str)
    (hm : hasSub l shaderTok = true) :
    (hasSub l vertexTok = false → hasSub l fragmentTok = false →
      lineStep st l = some st) ∧
    (hasSub l vertexTok = true → hasSub l fragmentTok = true →
      lineStep st l = some { st with type := ShaderType.VERTEX }) := by
  constructor
  · intro hv hf
    simp [lineStep, hm, hv, hf]
  · intro hv _
    simp [lineStep, hm, hv]

theorem lineStep_directive_cases_witness :
    hasSub ("#shader geometry".toList) shaderTok = true ∧
    ((hasSub ("#shader geometry".toList) vertexTok = false →
      hasSub ("#shader geometry".toList) fragmentTok = false →
      lineStep ⟨ShaderType.NONE, [], []⟩ ("#shader geometry".toList) =
        some ⟨ShaderType.NONE, [], []⟩) ∧
     (hasSub ("#shader geometry".toList) vertexTok = true →
      hasSub ("#shader geometry".toList) fragmentTok = true →
      lineStep ⟨ShaderType.NONE, [], []⟩ ("#shader geometry".toList) =
        some { (⟨ShaderType.NONE, [], []⟩ : ParseState) with
                 type := ShaderType.VERTEX })) :=
  ⟨by decide,
    lineStep_directive_cases ⟨ShaderType.NONE, [], []⟩
      ("#shader geometry".toList) (by decide)⟩

/-! ### Claim theorems for the program builder -/

/-- Claim C2 (refuting evaluation): on a driver where the vertex stage
fails to compile, `CreateShader` does print the failure message tagged
`vertex` together with the log and does delete the partially-created
vertex stage object (name 2) — but it does not signal failure
immediately: it still creates and compiles a fragment stage (name 3),
attaches both handles to the program, links, and returns the program name
1 instead of stopping. -/
theorem createShader_vertex_failure_still_compiles_fragment :
    GLEvent.printLine (failMsg ++ stageName GLShaderKind.vertex) ∈
      vertexFailBuild.2.events ∧
    GLEvent.printLine (vertexFailOracle.infoLog GLShaderKind.vertex badVertexSrc) ∈
      vertexFailBuild.2.events ∧
    GLEvent.deleteShader 2 ∈ vertexFailBuild.2.events ∧
    GLEvent.createShader GLShaderKind.fragment 3 ∈ vertexFailBuild.2.events ∧
    GLEvent.compileShader 3 ∈ vertexFailBuild.2.events ∧
    GLEvent.linkProgram 1 true ∈ vertexFailBuild.2.events ∧
    vertexFailBuild.1 = 1 := by decide

/-- Claim C3: `CreateShader` performs no link-status query
(`glGetProgramiv(GL_LINK_STATUS)` never appears in its trace) and returns
the program name allocated by `glCreateProgram`, for every driver
behavior — in particular even when linking failed. -/
theorem createShader_ignores_link_status (o : GLOracle) (v f : Str) (n : Nat) :
    (CreateShader o v f ⟨n, []⟩).1 = n ∧
    ∀ p r, GLEvent.getProgramLinkStatus p r ∉ (CreateShader o v f ⟨n, []⟩).2.events := by
  cases hv : o.compileOk GLShaderKind.vertex v <;>
    cases hf : o.compileOk GLShaderKind.fragment f <;>
    exact ⟨by simp [CreateShader, CompileShader, emit, freshId, hv, hf],
      fun p r => by simp [CreateShader, CompileShader, emit, freshId, hv, hf]⟩

/-- Claim C4 (refuting evaluation): on a driver where both stages compile
but linking fails, `CreateShader` still returns the nonzero program name
1: the caller receives neither a fully valid (linked) program nor a
sentinel failure value, so a partially-built program is exposed. -/
theorem createShader_exposes_unlinked_program :
    GLEvent.linkProgram 1 false ∈ linkFailBuild.2.events ∧
    linkFailBuild.1 = 1 ∧ linkFailBuild.1 ≠ 0 := by decide

/-- Claim C7: when a stage compilation fails, `CompileShader` writes
exactly two lines to the output stream — first the failure message naming
the failed stage, then the full driver-provided info log, in that
order — and issues exactly one `glCompileShader` call, so compilation is
never retried. -/
theorem compileShader_failure_diagnostic (o : GLOracle) (k : GLShaderKind)
    (s : Str) (n : Nat) (h : o.compileOk k s = false) :
    printedLines (CompileShader o k s ⟨n, []⟩).2.events =
      [failMsg ++ stageName k, o.infoLog k s] ∧
    numCompileCalls (CompileShader o k s ⟨n, []⟩).2.events = 1 := by
  constructor <;>
    simp [CompileShader, emit, freshId, h, printedLines, numCompileCalls]

theorem compileShader_failure_diagnostic_witness :
    vertexFailOracle.compileOk GLShaderKind.vertex badVertexSrc = false ∧
    printedLines (CompileShader vertexFailOracle GLShaderKind.vertex badVertexSrc
        ⟨1, []⟩).2.events =
      [failMsg ++ stageName GLShaderKind.vertex,
       vertexFailOracle.infoLog GLShaderKind.vertex badVertexSrc] ∧
    numCompileCalls (CompileShader vertexFailOracle GLShaderKind.vertex badVertexSrc
        ⟨1, []⟩).2.events = 1 := by
  refine ⟨by decide, ?_, ?_⟩
  · exact (compileShader_failure_diagnostic vertexFailOracle GLShaderKind.vertex
      badVertexSrc 1 (by decide)).1
  · exact (compileShader_failure_diagnostic vertexFailOracle GLShaderKind.vertex
      badVertexSrc 1 (by decide)).2

/-- Claim C8: every stage object created during a `CreateShader` build is
deleted within that same build, for every driver behavior — in particular
regardless of the link outcome: on a compile-failure path `CompileShader`
deletes the stage itself, and `CreateShader` deletes both stage handles
after linking. -/
theorem createShader_deletes_stages (o : GLOracle) (v f : Str) (n : Nat)
    (k : GLShaderKind) (id : Nat)
    (h : GLEvent.createShader k id ∈ (CreateShader o v f ⟨n, []⟩).2.events) :
    GLEvent.deleteShader id ∈ (CreateShader o v f ⟨n, []⟩).2.events := by
  cases hv : o.compileOk GLShaderKind.vertex v <;>
    cases hf : o.compileOk GLShaderKind.fragment f <;>
    · simp [CreateShader, CompileShader, emit, freshId, hv, hf] at h ⊢
      rcases h with ⟨_, h1⟩ | ⟨_, h1⟩ <;> simp [h1]

theorem createShader_deletes_stages_witness :
    GLEvent.createShader GLShaderKind.vertex 2 ∈
      (CreateShader vertexFailOracle badVertexSrc okFragSrc ⟨1, []⟩).2.events ∧
    GLEvent.deleteShader 2 ∈
      (CreateShader vertexFailOracle badVertexSrc okFragSrc ⟨1, []⟩).2.events :=
  ⟨by decide,
    createShader_deletes_stages vertexFailOracle badVertexSrc okFragSrc 1
      GLShaderKind.vertex 2 (by decide)⟩

end OpenGLVerify

